import Mathlib

/-!
Verification of the edit-application and import-consolidation core of the
ts-isolate repository (`src/ts_isolate.ts`), shallow-embedded over `List Char`.

JavaScript strings are sequences of UTF-16 code units; we model them as
`List Char` with offsets as list indices.  `String.prototype.substring(a, b)`
clamps its arguments to `[0, length]` (and swaps them when `a > b`); every call
site in the source has `a ≤ b`, and clamped `substring(0, b)` / `substring(a)`
coincide with `List.take b` / `List.drop a` (both clamp), so splices are
modelled with `take`/`drop` directly.

The module-level regex `dynamicTypeRegex` is created with the `g` flag, so its
`lastIndex` is mutable state shared by every `.test` call: a successful
`.test` leaves `lastIndex` after the match, a failed `.test` resets it to `0`,
and `String.prototype.matchAll` runs on a clone (leaving the original's
`lastIndex` untouched).  The embedding threads this `lastIndex` explicitly.

The TypeScript parser invoked by `ts.createSourceFile` is an external library;
the source only consumes the list of end offsets of the top-level import
declarations, so that parser is a parameter `parse : Str → List Nat` of the
embedded `applyTextChanges`.

`assert(...)` failures (node's `assert`) abort the run; fallible code is
embedded in `Except String`.
-/

namespace TsIsolate

/-- A JavaScript string, as a list of characters. -/
abbrev Str := List Char

/-- Coerce a Lean string literal to the `Str` model. -/
def str (s : String) : Str := s.data

/-- `span` of a TypeScript `TextChange`: the half-open range
`[start, start+length)`. -/
structure TSpan where
  start : Nat
  length : Nat
deriving DecidableEq, Repr

/-- TypeScript's `TextChange`: replace `text[start, start+length)` with
`newText`. -/
structure TextChange where
  span : TSpan
  newText : Str
deriving DecidableEq, Repr

/-- `p` is a prefix of `t` (char-by-char comparison, as in regex literal
matching). -/
def beginsWith : Str → Str → Bool
  | [], _ => true
  | _ :: _, [] => false
  | p :: ps, c :: cs => p = c && beginsWith ps cs

/-- A word character of the regex classes `[A-Za-z0-9_]` and `\b`
(case-sensitive, ASCII only). -/
def isWordChar (c : Char) : Bool := c.isAlpha || c.isDigit || c = '_'

/-- One match of `dynamicTypeRegex = /\bimport\("([^"]+)"\)\.([A-Za-z0-9_]+)\b/g`:
the index of the match and its two capture groups (module specifier and
member identifier). -/
structure RMatch where
  index : Nat
  modName : Str
  tyName : Str
deriving DecidableEq, Repr

/-- The full matched text `import("<module>").<identifier>`. -/
def RMatch.matchText (m : RMatch) : Str :=
  str "import(\"" ++ m.modName ++ str "\")." ++ m.tyName

/-- The position one past the end of the match. -/
def RMatch.stop (m : RMatch) : Nat := m.index + m.matchText.length

/-- Attempt to match the body of `dynamicTypeRegex` at the head of `t`:
literal `import("`, then the greedy nonempty group `([^"]+)` (which can never
cross the closing quote, so backtracking is immaterial), then literal `").`,
then the greedy nonempty group `([A-Za-z0-9_]+)`; the trailing `\b` always
holds after a maximal word-character run. -/
def matchCore (t : Str) : Option (Str × Str) :=
  if beginsWith (str "import(\"") t then
    let rest := t.drop 8
    let md := rest.takeWhile (fun c => c ≠ '"')
    if md.isEmpty then none
    else
      let rest2 := rest.drop md.length
      if beginsWith (str "\").") rest2 then
        let ty := (rest2.drop 3).takeWhile isWordChar
        if ty.isEmpty then none else some (md, ty)
      else none
  else none

/-- The leading `\b` of `dynamicTypeRegex`: since the next regex atom is the
word character `i`, the boundary holds exactly when position `p` is at the
start or preceded by a non-word character.  (For `p` past the end of `s` the
body match fails anyway, so the `true` default is immaterial.) -/
def wordBoundaryBefore (s : Str) (p : Nat) : Bool :=
  match p with
  | 0 => true
  | q + 1 =>
    match s.get? q with
    | some c => !isWordChar c
    | none => true

/-- Attempt a match of `dynamicTypeRegex` starting exactly at position `p`. -/
def matchAt (s : Str) (p : Nat) : Option RMatch :=
  if wordBoundaryBefore s p then
    match matchCore (s.drop p) with
    | some (md, ty) => some ⟨p, md, ty⟩
    | none => none
  else none

/-- Scan positions `L, L+1, ...` for the leftmost match, spending one unit of
fuel per position (regex search from `lastIndex`). -/
def findFromAux (s : Str) : Nat → Nat → Option RMatch
  | 0, _ => none
  | fuel + 1, L =>
    match matchAt s L with
    | some m => some m
    | none => findFromAux s fuel (L + 1)

/-- Leftmost match of `dynamicTypeRegex` at a position `≥ L` (no match can
start past `s.length`, so fuel `s.length + 1 - L` scans every candidate). -/
def findFrom (s : Str) (L : Nat) : Option RMatch :=
  findFromAux s (s.length + 1 - L) L

/-- `dynamicTypeRegex.test(s)` with `lastIndex = L`: returns the outcome and
the regex's new `lastIndex` (set past the match on success, reset to `0` on
failure, per global-flag `RegExp.prototype.exec` semantics). -/
def regexTest (s : Str) (L : Nat) : Bool × Nat :=
  match findFrom s L with
  | some m => (true, m.stop)
  | none => (false, 0)

/-- All matches found by `s.matchAll(dynamicTypeRegex)` starting from
position `L`, resuming after each (nonempty) match. -/
def matchAllAux (s : Str) : Nat → Nat → List RMatch
  | 0, _ => []
  | fuel + 1, L =>
    match findFrom s L with
    | none => []
    | some m => m :: matchAllAux s fuel m.stop

/-- `newText.matchAll(dynamicTypeRegex)` as called in the source: the clone
starts at the original's `lastIndex`, which is `0` there because the
immediately preceding failed `.test` reset it.  Every match consumes at least
one position, so fuel `s.length + 1` is enough. -/
def matchAllList (s : Str) : List RMatch := matchAllAux s (s.length + 1) 0

/-- One splice of the descending loop body:
``fileText.substring(0, start) + updatedText + fileText.substring(end)``. -/
def spliceOne (t : Str) (tc : TextChange) : Str :=
  t.take tc.span.start ++ tc.newText ++ t.drop (tc.span.start + tc.span.length)

/-- The loop of `applyTextChanges` with `fixupTypes = false` (the form used by
the recursive inner call): iterate `i` from `textChanges.length - 1` down to
`0`, splicing each `newText` in place.  The last list element is processed
first. -/
def applyEdits (t : Str) : List TextChange → Str
  | [] => t
  | tc :: rest => spliceOne (applyEdits t rest) tc

/-- `importsToAddByModule`: a `Map<string, Set<string>>` in insertion order,
with each identifier set in insertion order and duplicate-free. -/
abbrev Demand := List (Str × List Str)

/-- `Map.get(module)!.add(type)` after `Map.set(module, new Set())` when
absent: first-seen module order is preserved, identifiers are appended only
when new. -/
def addImport : Demand → Str → Str → Demand
  | [], md, ty => [(md, [ty])]
  | (m, tys) :: rest, md, ty =>
    if m = md then (m, if ty ∈ tys then tys else tys ++ [ty]) :: rest
    else (m, tys) :: addImport rest md ty

/-- The `for (const match of newText.matchAll(...))` body: assert the capture
groups are truthy (nonempty), record the demand, and push the nested change
replacing the matched text with the bare identifier. -/
def recordMatches : Demand → List RMatch → Except String (Demand × List TextChange)
  | d, [] => .ok (d, [])
  | d, m :: ms =>
    if m.modName.isEmpty || m.tyName.isEmpty then
      .error "Assertion failed: module && type"
    else
      match recordMatches (addImport d m.modName m.tyName) ms with
      | .error e => .error e
      | .ok (d2, cs) => .ok (d2, ⟨⟨m.index, m.matchText.length⟩, m.tyName⟩ :: cs)

/-- The nested `TextChange`s scheduled for a list of matches. -/
def changesOf (ms : List RMatch) : List TextChange :=
  ms.map fun m => ⟨⟨m.index, m.matchText.length⟩, m.tyName⟩

/-- The demand accumulated over a list of matches, in match order. -/
def foldDemand (d : Demand) (ms : List RMatch) : Demand :=
  ms.foldl (fun d m => addImport d m.modName m.tyName) d

/-- The variant of the JSX-cleanup regex with the optional ` type` group
present. -/
def jsxTypeVariant : Str := str "import \x7b type JSX \x7d from \'react/jsx-runtime\';\n"

/-- The variant of the JSX-cleanup regex without the optional group. -/
def jsxPlainVariant : Str := str "import \x7b JSX \x7d from \'react/jsx-runtime\';\n"

/-- Left-to-right global replace with `''`: at each position remove a match
(preferring the longer `( type)?`-present variant, as the greedy group does)
and resume after it, otherwise keep the character.  Fuel is the remaining
length; each step consumes at least one character. -/
def removeJsxAux : Nat → Str → Str
  | 0, s => s
  | _ + 1, [] => []
  | fuel + 1, c :: rest =>
    if beginsWith jsxTypeVariant (c :: rest) then
      removeJsxAux fuel ((c :: rest).drop jsxTypeVariant.length)
    else if beginsWith jsxPlainVariant (c :: rest) then
      removeJsxAux fuel ((c :: rest).drop jsxPlainVariant.length)
    else c :: removeJsxAux fuel rest

/-- `fileText.replace(/import \{( type)? JSX \} from 'react\/jsx-runtime';\n/g, '')`.
This regex literal is evaluated afresh on each call, so it carries no state. -/
def removeJsxImports (s : Str) : Str := removeJsxAux s.length s

/-- `import {${[...types].join(', ')}} from '${module}';` -/
def importLine (md : Str) (tys : List Str) : Str :=
  str "import \x7b" ++ List.intercalate (str ", ") tys ++ str "\x7d from \'" ++ md ++ str "\';"

/-- `[...importsToAddByModule].map(line).join('\n')`. -/
def joinImportBlock (d : Demand) : Str :=
  List.intercalate [Char.ofNat 10] (d.map fun p => importLine p.1 p.2)

/-- The mutable state of one `applyTextChanges` run: the accumulated file
text, the shared regex's `lastIndex`, and the run-scoped import demand. -/
structure FixState where
  text : Str
  lastIndex : Nat
  demand : Demand
deriving DecidableEq, Repr

/-- One iteration of the descending loop with `fixupTypes = true`:
extract `oldText`, run the stateful `.test`, and either splice `newText`
unmodified (suppression) or rewrite every dynamic reference in `newText`
via the nested no-fixup application, recording the demand. -/
def processEdit (st : FixState) (tc : TextChange) : Except String FixState :=
  let start := tc.span.start
  let stop := start + tc.span.length
  let oldText := (st.text.take stop).drop start
  match regexTest oldText st.lastIndex with
  | (true, li) =>
    .ok ⟨st.text.take start ++ tc.newText ++ st.text.drop stop, li, st.demand⟩
  | (false, li) =>
    match recordMatches st.demand (matchAllList tc.newText) with
    | .error e => .error e
    | .ok (d, changes) =>
      .ok ⟨st.text.take start ++ applyEdits tc.newText changes ++ st.text.drop stop, li, d⟩

/-- The whole descending loop (last list element processed first). -/
def runEdits (st : FixState) : List TextChange → Except String FixState
  | [] => .ok st
  | tc :: rest =>
    match runEdits st rest with
    | .error e => .error e
    | .ok st2 => processEdit st2 tc

/-- `applyTextChanges(fileText, textChanges)` (with the default
`fixupTypes = true`), threading the regex's entry `lastIndex` and returning
the exit `lastIndex` alongside the text.  `parse` stands for the external
TypeScript parser: the end offsets, in source order, of the top-level import
declarations of its argument (`ts.createSourceFile(..).statements` filtered
to `ImportDeclaration`, each contributing its `.end`). -/
def applyTextChanges (parse : Str → List Nat) (fileText : Str)
    (textChanges : List TextChange) (lastIndex : Nat) : Except String (Str × Nat) :=
  match runEdits ⟨fileText, lastIndex, []⟩ textChanges with
  | .error e => .error e
  | .ok st =>
    let t1 := removeJsxImports st.text
    if st.demand.isEmpty then .ok (t1, st.lastIndex)
    else
      match (parse t1).getLast? with
      | none => .error "Assertion failed: lastImportStatement"
      | some pos =>
        .ok (t1.take pos ++ Char.ofNat 10 :: joinImportBlock st.demand ++ t1.drop pos,
          st.lastIndex)

/-- A source file as enumerated by `program.getSourceFiles()`, together with
the data `genCodeFixesFromProject` consumes: `path.relative(cwd, fileName)`
and the `changes` array of the combined code fix the language service returns
for it (each element carrying its `textChanges`). -/
structure ProjectFile where
  fileName : Str
  isDeclarationFile : Bool
  relativePath : Str
  changes : List (List TextChange)
deriving DecidableEq, Repr

/-- A path separator, `[\\/]`. -/
def isSep (c : Char) : Bool := c = '/' || c = '\\'

/-- `/[\\/]node_modules[\\/]/.test(fileName)`: a separator, the literal
segment, and a separator occur somewhere in the path. -/
def hasNodeModulesSeg : Str → Bool
  | [] => false
  | c :: rest =>
    (isSep c && beginsWith (str "node_modules") rest &&
      (match rest.drop 12 with
       | d :: _ => isSep d
       | [] => false)) ||
    hasNodeModulesSeg rest

/-- `files !== null && !files.has(relativePath)`. -/
def filterRejects : Option (List Str) → Str → Bool
  | none, _ => false
  | some fs, p => !(fs.contains p)

/-- `genCodeFixesFromProject`: walk the project's files in order, skipping
vendored paths, declaration files, filtered-out files, and files whose
combined fix has zero changes; yield `(relativePath, changes[0].textChanges)`
for a single change; `assert.fail` on more than one change, which ends the
generator (earlier yields stand, nothing later is produced).  The result is
the list of yielded pairs and the abort message, if any. -/
def genCodeFixesFromProject (filter : Option (List Str)) :
    List ProjectFile → List (Str × List TextChange) × Option Str
  | [] => ([], none)
  | f :: rest =>
    if hasNodeModulesSeg f.fileName then genCodeFixesFromProject filter rest
    else if f.isDeclarationFile then genCodeFixesFromProject filter rest
    else if filterRejects filter f.relativePath then genCodeFixesFromProject filter rest
    else
      match f.changes with
      | [] => genCodeFixesFromProject filter rest
      | [c] =>
        let r := genCodeFixesFromProject filter rest
        ((f.relativePath, c) :: r.1, r.2)
      | _ :: _ :: _ => ([], some (str "Multiple fixes found for " ++ f.relativePath))

/-- Reconstruction of the edited text as the spec words it: the untouched gap
of `t` before each edit's span, that edit's replacement text, and finally the
untouched suffix — spans taken in ascending order starting from `pos`. -/
def naiveFrom (t : Str) (pos : Nat) : List TextChange → Str
  | [] => t.drop pos
  | tc :: rest =>
    (t.take tc.span.start).drop pos ++ tc.newText ++
      naiveFrom t (tc.span.start + tc.span.length) rest

/-- The edits start at or after `pos`, are in ascending span order, are
pairwise disjoint, and every span ends within a text of length `n`. -/
def fitsB (n : Nat) : Nat → List TextChange → Bool
  | _, [] => true
  | pos, tc :: rest =>
    decide (pos ≤ tc.span.start) && decide (tc.span.start + tc.span.length ≤ n) &&
      fitsB n (tc.span.start + tc.span.length) rest

/-- The spec's emission wording, stated recursively: one line per module in
first-seen order, the lines newline-separated. -/
def specImportLines : Demand → Str
  | [] => []
  | [(md, tys)] => importLine md tys
  | (md, tys) :: rest => importLine md tys ++ Char.ofNat 10 :: specImportLines rest

/-! ## Supporting lemmas -/

theorem isEmpty_false_of_ne_nil {α : Type} {l : List α} (h : l ≠ []) : l.isEmpty = false := by
  cases l with
  | nil => exact absurd rfl h
  | cons a as => rfl

theorem beginsWith_le : ∀ p t : Str, beginsWith p t = true → p.length ≤ t.length
  | [], _, _ => Nat.zero_le _
  | p :: ps, [], h => by simp [beginsWith] at h
  | p :: ps, c :: cs, h => by
    simp only [beginsWith, Bool.and_eq_true] at h
    exact Nat.succ_le_succ (beginsWith_le ps cs h.2)

theorem matchText_length (m : RMatch) : m.matchText.length = 11 + m.modName.length + m.tyName.length := by
  have h1 : (str "import(\"").length = 8 := rfl
  have h2 : (str "\").").length = 3 := rfl
  simp only [RMatch.matchText, List.length_append, h1, h2]
  omega

theorem matchCore_sound {t md ty : Str} (h : matchCore t = some (md, ty)) :
    md ≠ [] ∧ ty ≠ [] ∧ 11 + md.length + ty.length ≤ t.length := by
  unfold matchCore at h
  split at h
  case isFalse => exact absurd h (by simp)
  case isTrue hb =>
    have hb8 : 8 ≤ t.length := beginsWith_le _ _ hb
    simp only at h
    split at h
    case isTrue => exact absurd h (by simp)
    case isFalse hmd =>
      split at h
      case isFalse => exact absurd h (by simp)
      case isTrue hb2 =>
        have hb3 : 3 ≤ ((t.drop 8).drop ((t.drop 8).takeWhile (fun c => c ≠ '"')).length).length :=
          beginsWith_le _ _ hb2
        split at h
        case isTrue => exact absurd h (by simp)
        case isFalse hty =>
          have h2 := Option.some.inj h
          have hmd2 := congrArg Prod.fst h2
          have hty2 := congrArg Prod.snd h2
          simp only at hmd2 hty2
          rw [← hmd2, ← hty2]
          refine ⟨fun hc => hmd (by rw [hc]; rfl), fun hc => hty (by rw [hc]; rfl), ?_⟩
          have l1 := (List.takeWhile_sublist (l := t.drop 8) (fun c => decide (c ≠ '"'))).length_le
          have l2 := (List.takeWhile_sublist
            (l := ((t.drop 8).drop ((t.drop 8).takeWhile (fun c => decide (c ≠ '"'))).length).drop 3)
            isWordChar).length_le
          simp only [List.length_drop] at l1 l2 hb3
          omega

theorem matchAt_sound {s : Str} {p : Nat} {m : RMatch} (h : matchAt s p = some m) :
    m.index = p ∧ m.modName ≠ [] ∧ m.tyName ≠ [] ∧ p + m.matchText.length ≤ s.length := by
  unfold matchAt at h
  split at h
  case isFalse => exact absurd h (by simp)
  case isTrue =>
    split at h
    case h_2 => exact absurd h (by simp)
    case h_1 md ty hc =>
      obtain rfl : (⟨p, md, ty⟩ : RMatch) = m := by simpa using h
      obtain ⟨h1, h2, h3⟩ := matchCore_sound hc
      have hd : (s.drop p).length = s.length - p := List.length_drop p s
      refine ⟨rfl, h1, h2, ?_⟩
      rw [matchText_length]
      simp only at *
      omega

theorem findFromAux_sound {s : Str} : ∀ {fuel L : Nat} {m : RMatch},
    findFromAux s fuel L = some m → matchAt s m.index = some m ∧ L ≤ m.index
  | 0, L, m, h => by simp [findFromAux] at h
  | fuel + 1, L, m, h => by
    unfold findFromAux at h
    split at h
    case h_1 m' hm =>
      obtain rfl : m' = m := by simpa using h
      have hidx := (matchAt_sound hm).1
      rw [hidx]
      exact ⟨hm, Nat.le_refl _⟩
    case h_2 =>
      obtain ⟨h1, h2⟩ := findFromAux_sound h
      exact ⟨h1, Nat.le_of_succ_le h2⟩

theorem findFrom_sound {s : Str} {L : Nat} {m : RMatch} (h : findFrom s L = some m) :
    matchAt s m.index = some m ∧ L ≤ m.index :=
  findFromAux_sound h

theorem matchAllAux_sound (s : Str) : ∀ (fuel L : Nat) (m : RMatch),
    m ∈ matchAllAux s fuel L → matchAt s m.index = some m
  | 0, L, m, h => by simp [matchAllAux] at h
  | fuel + 1, L, m, h => by
    unfold matchAllAux at h
    split at h
    case h_1 => simp at h
    case h_2 m' hm =>
      rcases List.mem_cons.mp h with rfl | hmem
      · exact (findFrom_sound hm).1
      · exact matchAllAux_sound s fuel m'.stop m hmem

theorem matchAllList_sound (s : Str) : ∀ m ∈ matchAllList s, matchAt s m.index = some m :=
  fun m hm => matchAllAux_sound s (s.length + 1) 0 m hm

theorem matchAllList_nonempty_groups (s : Str) :
    ∀ m ∈ matchAllList s, m.modName ≠ [] ∧ m.tyName ≠ [] := by
  intro m hm
  have := matchAt_sound (matchAllList_sound s m hm)
  exact ⟨this.2.1, this.2.2.1⟩

theorem matchAllAux_fits (s : Str) : ∀ (fuel L : Nat),
    fitsB s.length L (changesOf (matchAllAux s fuel L)) = true
  | 0, L => by simp [matchAllAux, changesOf, fitsB]
  | fuel + 1, L => by
    unfold matchAllAux
    split
    case h_1 => simp [changesOf, fitsB]
    case h_2 m hm =>
      obtain ⟨hAt, hL⟩ := findFrom_sound hm
      obtain ⟨hidx, _, _, hbound⟩ := matchAt_sound hAt
      have hrec := matchAllAux_fits s fuel m.stop
      simp only [changesOf, List.map_cons, fitsB, Bool.and_eq_true, decide_eq_true_eq]
      refine ⟨⟨by omega, by omega⟩, ?_⟩
      simpa [changesOf, RMatch.stop] using hrec

theorem matchAllList_fits (s : Str) : fitsB s.length 0 (changesOf (matchAllList s)) = true :=
  matchAllAux_fits s (s.length + 1) 0

theorem matchAllList_nil {s : Str} (h : findFrom s 0 = none) : matchAllList s = [] := by
  unfold matchAllList matchAllAux
  simp [h]

theorem recordMatches_ok : ∀ (ms : List RMatch) (d : Demand),
    (∀ m ∈ ms, m.modName ≠ [] ∧ m.tyName ≠ []) →
    recordMatches d ms = .ok (foldDemand d ms, changesOf ms)
  | [], d, _ => rfl
  | m :: ms, d, h => by
    have hm := h m (List.mem_cons_self m ms)
    have IH := recordMatches_ok ms (addImport d m.modName m.tyName)
      (fun x hx => h x (List.mem_cons_of_mem m hx))
    simp [recordMatches, isEmpty_false_of_ne_nil hm.1, isEmpty_false_of_ne_nil hm.2, IH,
      foldDemand, changesOf]

theorem applyEdits_eq_naiveFrom (t : Str) :
    ∀ (tcs : List TextChange) (pos : Nat), fitsB t.length pos tcs = true →
      applyEdits t tcs = t.take pos ++ naiveFrom t pos tcs
  | [], pos, _ => by simp [applyEdits, naiveFrom]
  | tc :: rest, pos, h => by
    simp only [fitsB, Bool.and_eq_true, decide_eq_true_eq] at h
    obtain ⟨⟨h1, h2⟩, h3⟩ := h
    have IH := applyEdits_eq_naiveFrom t rest (tc.span.start + tc.span.length) h3
    simp only [applyEdits, spliceOne, naiveFrom, IH]
    have hA : (t.take (tc.span.start + tc.span.length)).length = tc.span.start + tc.span.length := by
      rw [List.length_take]; omega
    have h4 : (t.take (tc.span.start + tc.span.length) ++
        naiveFrom t (tc.span.start + tc.span.length) rest).take tc.span.start =
        t.take tc.span.start := by
      rw [List.take_append_eq_append_take, hA, Nat.sub_eq_zero_of_le (by omega), List.take_zero,
        List.append_nil, List.take_take, Nat.min_eq_left (by omega)]
    have h5 : (t.take (tc.span.start + tc.span.length) ++
        naiveFrom t (tc.span.start + tc.span.length) rest).drop
          (tc.span.start + tc.span.length) =
        naiveFrom t (tc.span.start + tc.span.length) rest := by
      rw [List.drop_append_eq_append_drop, hA, Nat.sub_self, List.drop_zero,
        List.drop_eq_nil_of_le (by rw [hA]), List.nil_append]
    have h6 : t.take pos ++ (t.take tc.span.start).drop pos = t.take tc.span.start := by
      conv_rhs => rw [← List.take_append_drop pos (t.take tc.span.start)]
      rw [List.take_take, Nat.min_eq_left h1]
    rw [h4, h5]
    conv_lhs => rw [← h6]
    simp [List.append_assoc]

theorem regexTest_false {s : Str} {L : Nat} (h : (regexTest s L).1 = false) :
    regexTest s L = (false, 0) := by
  unfold regexTest at h ⊢
  cases hf : findFrom s L <;> simp [hf] at h ⊢

theorem processEdit_total (st : FixState) (tc : TextChange) :
    ∃ st2, processEdit st tc = .ok st2 := by
  rcases hrt : regexTest ((st.text.take (tc.span.start + tc.span.length)).drop tc.span.start)
      st.lastIndex with ⟨b, li⟩
  cases b
  · refine ⟨⟨st.text.take tc.span.start ++
        applyEdits tc.newText (changesOf (matchAllList tc.newText)) ++
        st.text.drop (tc.span.start + tc.span.length), li,
        foldDemand st.demand (matchAllList tc.newText)⟩, ?_⟩
    simp only [processEdit, hrt,
      recordMatches_ok (matchAllList tc.newText) st.demand
        (matchAllList_nonempty_groups tc.newText)]
  · refine ⟨⟨st.text.take tc.span.start ++ tc.newText ++
        st.text.drop (tc.span.start + tc.span.length), li, st.demand⟩, ?_⟩
    simp only [processEdit, hrt]

theorem runEdits_total (tcs : List TextChange) : ∀ st : FixState,
    ∃ st2, runEdits st tcs = .ok st2 := by
  induction tcs with
  | nil => exact fun st => ⟨st, rfl⟩
  | cons tc rest IH =>
    intro st
    obtain ⟨st1, h1⟩ := IH st
    obtain ⟨st2, h2⟩ := processEdit_total st1 tc
    exact ⟨st2, by simp [runEdits, h1, h2]⟩

theorem runEdits_noMatches : ∀ (tcs : List TextChange) (t : Str) (L : Nat) (d : Demand),
    (∀ tc ∈ tcs, findFrom tc.newText 0 = none) →
    ∃ li, runEdits ⟨t, L, d⟩ tcs = .ok ⟨applyEdits t tcs, li, d⟩
  | [], t, L, d, _ => ⟨L, rfl⟩
  | tc :: rest, t, L, d, h => by
    obtain ⟨li, hrest⟩ := runEdits_noMatches rest t L d
      (fun x hx => h x (List.mem_cons_of_mem tc hx))
    have hnil : matchAllList tc.newText = [] :=
      matchAllList_nil (h tc (List.mem_cons_self tc rest))
    simp only [runEdits, hrest]
    rcases hrt : regexTest (((applyEdits t rest).take (tc.span.start + tc.span.length)).drop
        tc.span.start) li with ⟨b, li2⟩
    cases b
    · refine ⟨li2, ?_⟩
      simp [processEdit, hrt, hnil, recordMatches, applyEdits, spliceOne]
    · refine ⟨li2, ?_⟩
      simp [processEdit, hrt, applyEdits, spliceOne]

theorem joinImportBlock_eq_spec : ∀ d : Demand, joinImportBlock d = specImportLines d
  | [] => rfl
  | [(md, tys)] => by simp [joinImportBlock, specImportLines, List.intercalate]
  | (md, tys) :: p :: rest => by
    cases p with
    | mk pm pt =>
      have IH := joinImportBlock_eq_spec ((pm, pt) :: rest)
      have hun : (List.intersperse [Char.ofNat 10]
          (importLine pm pt :: (rest.map fun q => importLine q.1 q.2))).flatten
          = specImportLines ((pm, pt) :: rest) := by
        simpa [joinImportBlock, List.intercalate] using IH
      simp only [joinImportBlock, List.map_cons, List.intercalate, List.intersperse_cons_cons,
        List.flatten_cons, hun]
      simp [specImportLines]

/-! ## Claim theorems -/

/-- C1 (counterexample): the claim quantifies over pairwise non-overlapping
edit lists "in source order, not necessarily sorted by start".  The code
iterates the array from its last element to its first without sorting, so a
disjoint edit list given in descending span order is processed in ascending
span order and the later splice lands on shifted coordinates: for
`T = "abcdef"` and the disjoint edits `[4,5)→"XX", [0,1)→"YY"` given in
descending order, `applyTextChanges` returns `"YYbcXXef"`, while concatenating
the untouched gaps and replacements in ascending span order gives
`"YYbcdXXf"`. -/
theorem applyTextChanges_unsorted_ne_naive :
    applyTextChanges (fun _ => []) (str "abcdef")
        [⟨⟨4, 1⟩, str "XX"⟩, ⟨⟨0, 1⟩, str "YY"⟩] 0 = .ok (str "YYbcXXef", 0) ∧
    naiveFrom (str "abcdef") 0 [⟨⟨0, 1⟩, str "YY"⟩, ⟨⟨4, 1⟩, str "XX"⟩] = str "YYbcdXXf" ∧
    str "YYbcXXef" ≠ str "YYbcdXXf" :=
  ⟨rfl, rfl, by decide⟩

/-- C1 (amended): for every original text and every edit list that is pairwise
non-overlapping, sorted ascending by start and in bounds (`fitsB`), whose
replacement texts contain no dynamic reference, and whose reconstruction is
untouched by the unconditional JSX-cleanup pass, `applyTextChanges` returns
exactly the concatenation, in ascending span order, of the untouched gaps of
the original text and the replacement texts. -/
theorem applyTextChanges_sorted_eq_naive (parse : Str → List Nat) (t : Str)
    (tcs : List TextChange) (L : Nat)
    (hfits : fitsB t.length 0 tcs = true)
    (hnm : ∀ tc ∈ tcs, findFrom tc.newText 0 = none)
    (hjsx : removeJsxImports (naiveFrom t 0 tcs) = naiveFrom t 0 tcs) :
    ∃ li, applyTextChanges parse t tcs L = .ok (naiveFrom t 0 tcs, li) := by
  obtain ⟨li, hrun⟩ := runEdits_noMatches tcs t L [] hnm
  have happ : applyEdits t tcs = naiveFrom t 0 tcs := by
    have h := applyEdits_eq_naiveFrom t tcs 0 hfits
    simpa using h
  rw [happ] at hrun
  exact ⟨li, by simp [applyTextChanges, hrun, hjsx]⟩

/-- Witness for C1 (amended): a sorted two-edit instance satisfying every
hypothesis, evaluated concretely. -/
theorem applyTextChanges_sorted_eq_naive_witness :
    ∃ li, applyTextChanges (fun _ => []) (str "abcdef")
        [⟨⟨0, 1⟩, str "YY"⟩, ⟨⟨4, 1⟩, str "XX"⟩] 0 = .ok (str "YYbcdXXf", li) :=
  applyTextChanges_sorted_eq_naive (fun _ => []) (str "abcdef")
    [⟨⟨0, 1⟩, str "YY"⟩, ⟨⟨4, 1⟩, str "XX"⟩] 0 (by decide) (by decide) (by decide)

/-- C2: with edit A (module `m1`, identifier `X`) processed first (it is last
in the array, hence first in the descending loop) and edit B (module `m2`,
identifiers `Y` then `Z`) second, the run's ImportDemand lists `m1` before
`m2` (first-seen order) with identifiers in insertion order, and the emitted
block is `import {X} from 'm1';` then `import {Y, Z} from 'm2';`, inserted
after the last import. -/
theorem applyTextChanges_import_order :
    runEdits ⟨str "import \x7bQ\x7d from \'q\';\nabcdef", 0, []⟩
        [⟨⟨21, 2⟩, str "import(\"m2\").Y+import(\"m2\").Z"⟩,
          ⟨⟨25, 2⟩, str "import(\"m1\").X"⟩]
      = .ok ⟨str "import \x7bQ\x7d from \'q\';\nY+ZcdX", 0,
          [(str "m1", [str "X"]), (str "m2", [str "Y", str "Z"])]⟩ ∧
    applyTextChanges (fun _ => [20]) (str "import \x7bQ\x7d from \'q\';\nabcdef")
        [⟨⟨21, 2⟩, str "import(\"m2\").Y+import(\"m2\").Z"⟩,
          ⟨⟨25, 2⟩, str "import(\"m1\").X"⟩] 0
      = .ok (str "import \x7bQ\x7d from \'q\';\nimport \x7bX\x7d from \'m1\';\nimport \x7bY, Z\x7d from \'m2\';\nY+ZcdX", 0) :=
  ⟨rfl, rfl⟩

/-- C3 (counterexample): `applyTextChanges` with an empty edit list still runs
the unconditional JSX-cleanup replace, so the one-line text
`import { JSX } from 'react/jsx-runtime';\n` comes back empty, not
unchanged. -/
theorem applyTextChanges_empty_jsx_counterexample :
    applyTextChanges (fun _ => []) jsxPlainVariant [] 0 = .ok ([], 0) ∧
    jsxPlainVariant ≠ [] :=
  ⟨rfl, by decide⟩

/-- C3 (amended): `apply(T, []) = T` for every text that the JSX-cleanup pass
leaves unchanged, i.e. containing no removable JSX import line. -/
theorem applyTextChanges_empty_edits (parse : Str → List Nat) (t : Str) (L : Nat)
    (h : removeJsxImports t = t) :
    applyTextChanges parse t [] L = .ok (t, L) := by
  simp [applyTextChanges, runEdits, h]

/-- Witness for C3 (amended): a text with no JSX import line is returned
unchanged. -/
theorem applyTextChanges_empty_edits_witness :
    applyTextChanges (fun _ => []) (str "abc") [] 0 = .ok (str "abc", 0) :=
  applyTextChanges_empty_edits (fun _ => []) (str "abc") 0 rfl

/-- C4 (code bug): `dynamicTypeRegex` is a module-level regex with the `g`
flag, so `.test`'s `lastIndex` is state that survives between calls.  With an
entry `lastIndex` of `0` the single edit's `oldText` matches and its
`newText` is spliced unmodified (leaving `lastIndex = 13`); re-entering with
`lastIndex = 13` the same `oldText` test misses, the `newText` is rewritten
and an import is inserted — two calls on identical `fileText` and edits
return different texts, refuting purity and determinism. -/
theorem applyTextChanges_regex_state_dependence :
    applyTextChanges (fun _ => [20]) (str "import \x7bA\x7d from \'a\';\nimport(\"m\").B")
        [⟨⟨21, 13⟩, str "import(\"n\").C"⟩] 0
      = .ok (str "import \x7bA\x7d from \'a\';\nimport(\"n\").C", 13) ∧
    applyTextChanges (fun _ => [20]) (str "import \x7bA\x7d from \'a\';\nimport(\"m\").B")
        [⟨⟨21, 13⟩, str "import(\"n\").C"⟩] 13
      = .ok (str "import \x7bA\x7d from \'a\';\nimport \x7bC\x7d from \'n\';\nC", 0) ∧
    str "import \x7bA\x7d from \'a\';\nimport(\"n\").C"
      ≠ str "import \x7bA\x7d from \'a\';\nimport \x7bC\x7d from \'n\';\nC" :=
  ⟨rfl, rfl, by decide⟩

/-- C5 (counterexample): the code's pattern requires the literal `import("…")`
call, not a generic quoted-module-plus-member shape: the claim's own instance
`const x: lookup("pkg/mod").Foo = y;` is passed through with no rewrite and
nothing recorded (no import inserted), instead of becoming
`const x: Foo = y;`. -/
theorem applyTextChanges_lookup_counterexample :
    applyTextChanges (fun _ => []) (str "ab")
        [⟨⟨0, 2⟩, str "const x: lookup(\"pkg/mod\").Foo = y;"⟩] 0
      = .ok (str "const x: lookup(\"pkg/mod\").Foo = y;", 0) ∧
    str "const x: lookup(\"pkg/mod\").Foo = y;" ≠ str "const x: Foo = y;" :=
  ⟨rfl, by decide⟩

/-- C5 (amended): for every edit whose `oldText` does not match the
dynamic-reference pattern (under the regex's entry state), the spliced text is
`newText` with every scanned occurrence of `import("module").Ident` replaced —
equal to the gap-and-identifier reconstruction of the scheduled nested edits —
and the run's demand is extended with exactly the `(module, identifier)` pair
of each occurrence; each recorded match is a genuine pattern occurrence at
its index. -/
theorem processEdit_rewrite_spec (st : FixState) (tc : TextChange)
    (h : (regexTest ((st.text.take (tc.span.start + tc.span.length)).drop tc.span.start)
        st.lastIndex).1 = false) :
    processEdit st tc = .ok
      ⟨st.text.take tc.span.start ++
          naiveFrom tc.newText 0 (changesOf (matchAllList tc.newText)) ++
          st.text.drop (tc.span.start + tc.span.length),
        0, foldDemand st.demand (matchAllList tc.newText)⟩ ∧
    ∀ m ∈ matchAllList tc.newText, matchAt tc.newText m.index = some m := by
  constructor
  · have h0 := regexTest_false h
    have happ : applyEdits tc.newText (changesOf (matchAllList tc.newText)) =
        naiveFrom tc.newText 0 (changesOf (matchAllList tc.newText)) := by
      have h1 := applyEdits_eq_naiveFrom tc.newText (changesOf (matchAllList tc.newText)) 0
        (matchAllList_fits tc.newText)
      simpa using h1
    simp only [processEdit, h0,
      recordMatches_ok (matchAllList tc.newText) st.demand
        (matchAllList_nonempty_groups tc.newText), happ]
  · exact matchAllList_sound tc.newText

/-- Witness for C5 (amended): the spec's instance with the code's actual
pattern — `const x: import("pkg/mod").Foo = y;` becomes `const x: Foo = y;`
with `pkg/mod → {Foo}` recorded. -/
theorem processEdit_rewrite_spec_witness :
    processEdit ⟨str "ab", 0, []⟩ ⟨⟨0, 2⟩, str "const x: import(\"pkg/mod\").Foo = y;"⟩
      = .ok ⟨str "const x: Foo = y;", 0, [(str "pkg/mod", [str "Foo"])]⟩ := by
  have h := (processEdit_rewrite_spec ⟨str "ab", 0, []⟩
    ⟨⟨0, 2⟩, str "const x: import(\"pkg/mod\").Foo = y;"⟩ (by decide)).1
  rw [h]
  rfl

/-- C6 (code bug): the suppression check shares the global regex's
`lastIndex`.  After the first-processed edit's `oldText` matches (leaving
`lastIndex = 23`), the second-processed edit's `oldText` — the slice
`[21,34)`, which is exactly the pattern text `import("m").B` — is tested from
position 23 and misses, so its `newText` is rewritten and its import recorded,
although the claim requires it to be spliced unmodified with nothing
recorded. -/
theorem applyTextChanges_suppression_defeated :
    ((str "import \x7bA\x7d from \'a\';\nimport(\"m\").B          import(\"m\").A").take 34).drop 21
      = str "import(\"m\").B" ∧
    (regexTest (str "import(\"m\").B") 0).1 = true ∧
    applyTextChanges (fun _ => [20])
        (str "import \x7bA\x7d from \'a\';\nimport(\"m\").B          import(\"m\").A")
        [⟨⟨21, 13⟩, str "import(\"n\").C"⟩, ⟨⟨34, 23⟩, str "Q"⟩] 0
      = .ok (str "import \x7bA\x7d from \'a\';\nimport \x7bC\x7d from \'n\';\nCQ", 0) :=
  ⟨rfl, rfl, rfl⟩

/-- C7: whenever the loop finishes with a non-empty ImportDemand and the
parser finds zero top-level import declarations in the edited text, the run
fails with the `lastImportStatement` assertion instead of returning. -/
theorem applyTextChanges_fatal_on_missing_imports (parse : Str → List Nat) (t : Str)
    (tcs : List TextChange) (L : Nat) (st : FixState)
    (h1 : runEdits ⟨t, L, []⟩ tcs = .ok st)
    (h2 : st.demand ≠ [])
    (h3 : parse (removeJsxImports st.text) = []) :
    applyTextChanges parse t tcs L = .error "Assertion failed: lastImportStatement" := by
  simp [applyTextChanges, h1, isEmpty_false_of_ne_nil h2, h3]

/-- Witness for C7: one edit introduces a dynamic reference into an
import-less file; the run errors. -/
theorem applyTextChanges_fatal_on_missing_imports_witness :
    applyTextChanges (fun _ => []) (str "x") [⟨⟨0, 1⟩, str "import(\"m\").A"⟩] 0
      = .error "Assertion failed: lastImportStatement" :=
  applyTextChanges_fatal_on_missing_imports (fun _ => []) (str "x")
    [⟨⟨0, 1⟩, str "import(\"m\").A"⟩] 0 ⟨str "A", 0, [(str "m", [str "A"])]⟩
    rfl (by decide) rfl

/-- C8: with a non-empty ImportDemand and at least one top-level import
declaration (last one ending at offset `pos` of the edited text), the merged
block — one line per module in first-seen order, newline-separated — is
inserted contiguously with a single leading newline exactly at `pos`, the
first `pos` characters of the edited text staying in place, for any number of
edits. -/
theorem applyTextChanges_insertion_point (parse : Str → List Nat) (t : Str)
    (tcs : List TextChange) (L : Nat) (st : FixState) (pos : Nat)
    (h1 : runEdits ⟨t, L, []⟩ tcs = .ok st)
    (h2 : st.demand ≠ [])
    (h3 : (parse (removeJsxImports st.text)).getLast? = some pos)
    (h4 : pos ≤ (removeJsxImports st.text).length) :
    applyTextChanges parse t tcs L = .ok
      ((removeJsxImports st.text).take pos ++
        Char.ofNat 10 :: specImportLines st.demand ++ (removeJsxImports st.text).drop pos,
        st.lastIndex) ∧
    ((removeJsxImports st.text).take pos).length = pos := by
  constructor
  · simp [applyTextChanges, h1, isEmpty_false_of_ne_nil h2, h3, joinImportBlock_eq_spec]
  · rw [List.length_take]
    omega

/-- Witness for C8: a one-edit run whose demand is `m → {B}`, inserted right
after the single import line ending at offset 20. -/
theorem applyTextChanges_insertion_point_witness :
    applyTextChanges (fun _ => [20]) (str "import \x7bA\x7d from \'a\';\nx")
        [⟨⟨21, 1⟩, str "import(\"m\").B"⟩] 0
      = .ok (str "import \x7bA\x7d from \'a\';\nimport \x7bB\x7d from \'m\';\nB", 0) := by
  have h := (applyTextChanges_insertion_point (fun _ => [20])
    (str "import \x7bA\x7d from \'a\';\nx") [⟨⟨21, 1⟩, str "import(\"m\").B"⟩] 0
    ⟨str "import \x7bA\x7d from \'a\';\nB", 0, [(str "m", [str "B"])]⟩ 20
    rfl (by decide) rfl (by decide)).1
  rw [h]
  rfl

/-- C9: in the fix-discovery loop, a file whose combined fix has zero changes
is skipped exactly as if absent (no error), while a file with two or more
changes that passes the filters aborts the whole run: provided no earlier
file aborted, the yields are exactly those of the files before it and the
abort message is reported — nothing is yielded for it or any later file. -/
theorem genCodeFixes_skip_empty_abort_multiple
    (filter : Option (List Str)) (pre post : List ProjectFile) (f0 f2 : ProjectFile)
    (h0 : f0.changes = [])
    (hnm : hasNodeModulesSeg f2.fileName = false)
    (hdecl : f2.isDeclarationFile = false)
    (hfil : filterRejects filter f2.relativePath = false)
    (h2 : 2 ≤ f2.changes.length) :
    genCodeFixesFromProject filter (pre ++ f0 :: post)
      = genCodeFixesFromProject filter (pre ++ post) ∧
    ((genCodeFixesFromProject filter pre).2 = none →
      genCodeFixesFromProject filter (pre ++ f2 :: post)
        = ((genCodeFixesFromProject filter pre).1,
            some (str "Multiple fixes found for " ++ f2.relativePath))) := by
  constructor
  · induction pre with
    | nil =>
      by_cases ha : hasNodeModulesSeg f0.fileName
      · simp [genCodeFixesFromProject, ha]
      · by_cases hb : f0.isDeclarationFile
        · simp [genCodeFixesFromProject, ha, hb]
        · by_cases hc : filterRejects filter f0.relativePath
          · simp [genCodeFixesFromProject, ha, hb, hc]
          · simp [genCodeFixesFromProject, ha, hb, hc, h0]
    | cons p pre IH =>
      by_cases ha : hasNodeModulesSeg p.fileName
      · simpa [genCodeFixesFromProject, ha] using IH
      · by_cases hb : p.isDeclarationFile
        · simpa [genCodeFixesFromProject, ha, hb] using IH
        · by_cases hc : filterRejects filter p.relativePath
          · simpa [genCodeFixesFromProject, ha, hb, hc] using IH
          · rcases hch : p.changes with _ | ⟨c, _ | ⟨c2, cs2⟩⟩
            · simpa [genCodeFixesFromProject, ha, hb, hc, hch] using IH
            · simp [genCodeFixesFromProject, ha, hb, hc, hch, IH]
            · simp [genCodeFixesFromProject, ha, hb, hc, hch]
  · induction pre with
    | nil =>
      intro _
      rcases hx : f2.changes with _ | ⟨a, _ | ⟨b, r⟩⟩
      · rw [hx] at h2; simp at h2
      · rw [hx] at h2; simp at h2
      · simp [genCodeFixesFromProject, hnm, hdecl, hfil, hx]
    | cons p pre IH =>
      intro hnone
      by_cases ha : hasNodeModulesSeg p.fileName
      · have hnone2 : (genCodeFixesFromProject filter pre).2 = none := by
          simpa [genCodeFixesFromProject, ha] using hnone
        simpa [genCodeFixesFromProject, ha] using IH hnone2
      · by_cases hb : p.isDeclarationFile
        · have hnone2 : (genCodeFixesFromProject filter pre).2 = none := by
            simpa [genCodeFixesFromProject, ha, hb] using hnone
          simpa [genCodeFixesFromProject, ha, hb] using IH hnone2
        · by_cases hc : filterRejects filter p.relativePath
          · have hnone2 : (genCodeFixesFromProject filter pre).2 = none := by
              simpa [genCodeFixesFromProject, ha, hb, hc] using hnone
            simpa [genCodeFixesFromProject, ha, hb, hc] using IH hnone2
          · rcases hch : p.changes with _ | ⟨c, _ | ⟨c2, cs2⟩⟩
            · have hnone2 : (genCodeFixesFromProject filter pre).2 = none := by
                simpa [genCodeFixesFromProject, ha, hb, hc, hch] using hnone
              simpa [genCodeFixesFromProject, ha, hb, hc, hch] using IH hnone2
            · have hnone2 : (genCodeFixesFromProject filter pre).2 = none := by
                simpa [genCodeFixesFromProject, ha, hb, hc, hch] using hnone
              simp [genCodeFixesFromProject, ha, hb, hc, hch, IH hnone2]
            · have : (genCodeFixesFromProject filter (p :: pre)).2
                  = some (str "Multiple fixes found for " ++ p.relativePath) := by
                simp [genCodeFixesFromProject, ha, hb, hc, hch]
              rw [this] at hnone
              exact absurd hnone (by simp)

/-- Witness for C9: `b.ts` (zero changes) is skipped, `c.ts` (two changes)
aborts after `a.ts` has been yielded. -/
theorem genCodeFixes_skip_empty_abort_multiple_witness :
    genCodeFixesFromProject none
        [⟨str "a.ts", false, str "a.ts", [[⟨⟨0, 0⟩, []⟩]]⟩,
          ⟨str "b.ts", false, str "b.ts", []⟩]
      = genCodeFixesFromProject none [⟨str "a.ts", false, str "a.ts", [[⟨⟨0, 0⟩, []⟩]]⟩] ∧
    genCodeFixesFromProject none
        [⟨str "a.ts", false, str "a.ts", [[⟨⟨0, 0⟩, []⟩]]⟩,
          ⟨str "c.ts", false, str "c.ts", [[], []]⟩]
      = ((genCodeFixesFromProject none [⟨str "a.ts", false, str "a.ts", [[⟨⟨0, 0⟩, []⟩]]⟩]).1,
          some (str "Multiple fixes found for " ++ str "c.ts")) := by
  have h := genCodeFixes_skip_empty_abort_multiple none
    [⟨str "a.ts", false, str "a.ts", [[⟨⟨0, 0⟩, []⟩]]⟩] []
    ⟨str "b.ts", false, str "b.ts", []⟩ ⟨str "c.ts", false, str "c.ts", [[], []]⟩
    rfl rfl rfl rfl (by decide)
  exact ⟨h.1, h.2 rfl⟩

/-- C10: `applyTextChanges` never fails except in exactly one situation: the
loop itself always succeeds (the capture-group assertion is dead because both
groups are nonempty by construction), and the final result is an `.ok` string
if and only if the accumulated demand is empty or the parser finds at least
one top-level import declaration in the edited text — spans may overlap,
share starts, or run past the end of the text. -/
theorem applyTextChanges_totality (parse : Str → List Nat) (t : Str)
    (tcs : List TextChange) (L : Nat) :
    ∃ st, runEdits ⟨t, L, []⟩ tcs = .ok st ∧
      ((∃ out, applyTextChanges parse t tcs L = .ok out) ↔
        (st.demand = [] ∨ parse (removeJsxImports st.text) ≠ [])) := by
  obtain ⟨st, hst⟩ := runEdits_total tcs ⟨t, L, []⟩
  refine ⟨st, hst, ?_⟩
  by_cases hd : st.demand = []
  · simp [applyTextChanges, hst, hd]
  · by_cases hp : parse (removeJsxImports st.text) = []
    · simp [applyTextChanges, hst, isEmpty_false_of_ne_nil hd, hp, hd]
    · have hgl : ∃ pos, (parse (removeJsxImports st.text)).getLast? = some pos := by
        cases hx : (parse (removeJsxImports st.text)).getLast? with
        | some pos => exact ⟨pos, rfl⟩
        | none => exact absurd (List.getLast?_eq_none_iff.mp hx) hp
      obtain ⟨pos, hpos⟩ := hgl
      simp [applyTextChanges, hst, isEmpty_false_of_ne_nil hd, hpos, hd, hp]

end TsIsolate
